import Mathlib

/-!
# Verification of the restate invocation-tracking core (`src/common/src/types.rs`)

Shallow embedding of the data model and of the spec-level state machine of the
restate repository.  Byte strings (`Bytes`, `ByteString`, Rust `String`) are
modelled as `List Nat` (their byte sequences); `u64`/`u32` values as `Nat`;
`i32` error codes as `Int`; the opaque OpenTelemetry `SpanContext` as an
abstract token; `Uuid` invocation ids as `Nat`.
-/

namespace Restate

/-- Rust `Bytes` / `ByteString` / `String`: a byte sequence. -/
abbrev ByteSeq := List Nat

/-- `pub type EntryIndex = u32;` -/
abbrev EntryIndex := Nat

/-- `pub type PartitionKey = u64;` -/
abbrev PartitionKey := Nat

/-- `pub type MessageIndex = u64;` -/
abbrev MessageIndex := Nat

/-- `pub type InvocationId = Uuid;` — a 128-bit identifier, modelled abstractly. -/
abbrev InvocationId := Nat

/-- Opaque OpenTelemetry span context, threaded through but never inspected. -/
structure SpanContext where
  token : Nat
deriving DecidableEq, Repr

/-- `ServiceInvocationSpanContext(SpanContext)` — newtype over the span context. -/
structure ServiceInvocationSpanContext where
  ctx : SpanContext
deriving DecidableEq, Repr

/-- `IngressId(pub std::net::SocketAddr)` — the socket address is an opaque routing token. -/
structure IngressId where
  addr : Nat
deriving DecidableEq, Repr

/-- `struct ServiceId { service_name: ByteString, key: Bytes }` -/
structure ServiceId where
  service_name : ByteSeq
  key : ByteSeq
deriving DecidableEq, Repr

/-- `struct ServiceInvocationId { service_id: ServiceId, invocation_id: InvocationId }` -/
structure ServiceInvocationId where
  service_id : ServiceId
  invocation_id : InvocationId
deriving DecidableEq, Repr

/-- `ServiceId::new`: stores the converted inputs verbatim (no validation). -/
def ServiceId.new (service_name : ByteSeq) (key : ByteSeq) : ServiceId :=
  { service_name := service_name, key := key }

/-- `ServiceInvocationId::new`: builds the `ServiceId` inline and stores the invocation id. -/
def ServiceInvocationId.new (service_name : ByteSeq) (key : ByteSeq)
    (invocation_id : InvocationId) : ServiceInvocationId :=
  { service_id := { service_name := service_name, key := key }
    invocation_id := invocation_id }

/-- Modelled from the spec: `HashPartitioner::compute_partition_key` lives in
`src/common/src/partitioner.rs`, which is not among the provided sources.  The
spec requires only a fixed, pure hash of the key bytes into an unsigned 64-bit
value; we use a concrete polynomial hash over the bytes, reduced mod 2^64. -/
def HashPartitioner.compute_partition_key (key : ByteSeq) : PartitionKey :=
  key.foldl (fun h b => (h * 1099511628211 + b % 256) % 2 ^ 64) 14695981039346656037

/-- `ServiceId::partition_key`: delegates to the hash partitioner on `self.key` only. -/
def ServiceId.partition_key (s : ServiceId) : PartitionKey :=
  HashPartitioner.compute_partition_key s.key

/-- `enum ResponseResult { Success(Bytes), Failure(i32, ByteString) }` -/
inductive ResponseResult where
  | Success (bytes : ByteSeq)
  | Failure (error_code : Int) (error : ByteSeq)
deriving DecidableEq, Repr

/-- `enum ServiceInvocationResponseSink` -/
inductive ServiceInvocationResponseSink where
  | PartitionProcessor (caller : ServiceInvocationId) (entry_index : EntryIndex)
  | Ingress (ingress_id : IngressId)
deriving DecidableEq, Repr

/-- `struct ServiceInvocation` -/
structure ServiceInvocation where
  id : ServiceInvocationId
  method_name : ByteSeq
  argument : ByteSeq
  response_sink : Option ServiceInvocationResponseSink
  span_context : ServiceInvocationSpanContext
deriving DecidableEq, Repr

/-- `struct MillisSinceEpoch(u64)` -/
structure MillisSinceEpoch where
  millis : Nat
deriving DecidableEq, Repr

/-- `MillisSinceEpoch::new` -/
def MillisSinceEpoch.new (millis_since_epoch : Nat) : MillisSinceEpoch :=
  { millis := millis_since_epoch }

/-- `MillisSinceEpoch::as_u64` -/
def MillisSinceEpoch.as_u64 (m : MillisSinceEpoch) : Nat :=
  m.millis

/-- `MillisSinceEpoch::UNIX_EPOCH` -/
def MillisSinceEpoch.UNIX_EPOCH : MillisSinceEpoch := MillisSinceEpoch.new 0

/-- Largest `u64` value. -/
def u64MAX : Nat := 2 ^ 64 - 1

/-- `MillisSinceEpoch::MAX = MillisSinceEpoch::new(u64::MAX)` -/
def MillisSinceEpoch.MAX : MillisSinceEpoch := MillisSinceEpoch.new u64MAX

/-- `impl From<u64> for MillisSinceEpoch` — delegates to `new`. -/
def MillisSinceEpoch.fromU64 (value : Nat) : MillisSinceEpoch :=
  MillisSinceEpoch.new value

/-- `struct JournalMetadata { length, method, span_context }` -/
structure JournalMetadata where
  length : EntryIndex
  method : ByteSeq
  span_context : ServiceInvocationSpanContext
deriving DecidableEq, Repr

/-- `JournalMetadata::new(method, span_context, length)` -/
def JournalMetadata.new (method : ByteSeq) (span_context : ServiceInvocationSpanContext)
    (length : EntryIndex) : JournalMetadata :=
  { method := method, span_context := span_context, length := length }

/-- `struct InvokedStatus` -/
structure InvokedStatus where
  invocation_id : InvocationId
  journal_metadata : JournalMetadata
  response_sink : Option ServiceInvocationResponseSink
deriving DecidableEq, Repr

/-- `struct SuspendedStatus` — the `HashSet<EntryIndex>` is modelled as a `Finset`. -/
structure SuspendedStatus where
  invocation_id : InvocationId
  journal_metadata : JournalMetadata
  response_sink : Option ServiceInvocationResponseSink
  waiting_for_completed_entries : Finset EntryIndex
deriving DecidableEq

/-- `enum InvocationStatus { Invoked(..), Suspended(..), Free }` -/
inductive InvocationStatus where
  | Invoked (s : InvokedStatus)
  | Suspended (s : SuspendedStatus)
  | Free
deriving DecidableEq

/-- `impl Default for InvocationStatus { fn default() -> Self { InvocationStatus::Free } }` -/
def InvocationStatus.default : InvocationStatus := InvocationStatus.Free

/-- `enum ResolutionResult` -/
inductive ResolutionResult where
  | Success (invocation_id : InvocationId) (service_key : ByteSeq)
      (span_context : ServiceInvocationSpanContext)
  | Failure (error_code : Int) (error : ByteSeq)
deriving DecidableEq, Repr

/-- `enum EnrichedEntryHeader` -/
inductive EnrichedEntryHeader where
  | PollInputStream (is_completed : Bool)
  | OutputStream
  | GetState (is_completed : Bool)
  | SetState
  | ClearState
  | Sleep (is_completed : Bool)
  | Invoke (is_completed : Bool) (resolution_result : Option ResolutionResult)
  | BackgroundInvoke (resolution_result : ResolutionResult)
  | Awakeable (is_completed : Bool)
  | CompleteAwakeable
  | Custom (code : Nat) (requires_ack : Bool)
deriving DecidableEq, Repr

/-- `struct RawEntry<H> { header: H, entry: Bytes }` -/
structure RawEntry (H : Type) where
  header : H
  entry : ByteSeq
deriving DecidableEq, Repr

/-- `RawEntry::new` -/
def RawEntry.new {H : Type} (header : H) (entry : ByteSeq) : RawEntry H :=
  { header := header, entry := entry }

/-- `pub type EnrichedRawEntry = RawEntry<EnrichedEntryHeader>;` -/
abbrev EnrichedRawEntry := RawEntry EnrichedEntryHeader

/-- `enum CompletionResult { Ack, Empty, Success(Bytes), Failure(i32, ByteString) }` -/
inductive CompletionResult where
  | Ack
  | Empty
  | Success (bytes : ByteSeq)
  | Failure (error_code : Int) (error : ByteSeq)
deriving DecidableEq, Repr

/-- `impl From<ResponseResult> for CompletionResult` -/
def CompletionResult.fromResponseResult (value : ResponseResult) : CompletionResult :=
  match value with
  | ResponseResult.Success bytes => CompletionResult.Success bytes
  | ResponseResult.Failure error_code error_msg => CompletionResult.Failure error_code error_msg

/-- `enum JournalEntry { Entry(EnrichedRawEntry), Completion(CompletionResult) }` -/
inductive JournalEntry where
  | Entry (e : EnrichedRawEntry)
  | Completion (c : CompletionResult)
deriving DecidableEq, Repr

/-- `struct TimerKey { service_invocation_id, journal_index: u32, timestamp: u64 }` -/
structure TimerKey where
  service_invocation_id : ServiceInvocationId
  journal_index : Nat
  timestamp : Nat
deriving DecidableEq, Repr

/-- Variant discriminators for `InvocationStatus`. -/
def InvocationStatus.isInvoked : InvocationStatus → Bool
  | InvocationStatus.Invoked _ => true
  | _ => false

/-- `true` exactly on the `Suspended` variant. -/
def InvocationStatus.isSuspended : InvocationStatus → Bool
  | InvocationStatus.Suspended _ => true
  | _ => false

/-- `true` exactly on the `Free` variant. -/
def InvocationStatus.isFree : InvocationStatus → Bool
  | InvocationStatus.Free => true
  | _ => false

/-- A partition's status table: one record per `ServiceId` that has a non-default
status.  Lookup of an absent key yields `InvocationStatus::default()`, i.e. `Free`. -/
def getStatus (tbl : List (ServiceId × InvocationStatus)) (sid : ServiceId) :
    InvocationStatus :=
  match tbl.find? (fun p => decide (p.1 = sid)) with
  | some p => p.2
  | none => InvocationStatus.default

/-- Modelled from the spec: the error kinds of §7.  The state-transition logic of
§4.2 is described by the spec as load-bearing but is not among the provided
sources; only the data types it manipulates are. -/
inductive StateMachineError where
  | InvalidStatusTransition
deriving DecidableEq, Repr

/-- The per-`ServiceId` state the §4.2 state machine mutates: the current
`InvocationStatus` together with the journal for the active invocation. -/
structure InvocationState where
  status : InvocationStatus
  journal : List JournalEntry
deriving DecidableEq

/-- Modelled from the spec: the `Free → Invoked` transition of §4.2.  Dequeuing a
`ServiceInvocation` on a `Free` instance creates fresh `JournalMetadata` of
length 0 and records the response sink; on a non-`Free` instance the attempt
violates the single-active-invocation invariant and is rejected with
`InvalidStatusTransition`, leaving the state untouched. -/
def invoke (s : InvocationState) (inv : ServiceInvocation) :
    InvocationState × Option StateMachineError :=
  match s.status with
  | InvocationStatus.Free =>
    ({ status := InvocationStatus.Invoked
         { invocation_id := inv.id.invocation_id
           journal_metadata :=
             JournalMetadata.new inv.method_name inv.span_context 0
           response_sink := inv.response_sink }
       journal := [] }, none)
  | _ => (s, some StateMachineError.InvalidStatusTransition)

/-- Modelled from the spec (§4.3): applying a `CompletionResult` to an entry
index converts the pending entry stored at that index into a completed one. -/
def applyCompletionToJournal (journal : List JournalEntry) (idx : EntryIndex)
    (result : CompletionResult) : List JournalEntry :=
  journal.set idx (JournalEntry.Completion result)

/-- Modelled from the spec: the completion path of §4.2.  A `CompletionResult`
for an awaited entry index of a `Suspended` invocation marks the entry complete
in the journal and removes the index from the waiting set, transitioning to
`Invoked` when the waiting set becomes empty; a completion for an index not
currently awaited — or arriving in any other status — is a no-op. -/
def handleCompletion (s : InvocationState) (idx : EntryIndex)
    (result : CompletionResult) : InvocationState :=
  match s.status with
  | InvocationStatus.Suspended sus =>
    if idx ∈ sus.waiting_for_completed_entries then
      let journal := applyCompletionToJournal s.journal idx result
      let waiting := sus.waiting_for_completed_entries.erase idx
      if waiting = ∅ then
        { status := InvocationStatus.Invoked
            { invocation_id := sus.invocation_id
              journal_metadata := sus.journal_metadata
              response_sink := sus.response_sink }
          journal := journal }
      else
        { status := InvocationStatus.Suspended { sus with
            waiting_for_completed_entries := waiting }
          journal := journal }
    else s
  | _ => s

/-- Rust's derived `Ord` on byte sequences (`ByteString` delegates to `str`, `Bytes`
to `[u8]`): lexicographic comparison, a strict prefix comparing less. -/
def cmpBytes : ByteSeq → ByteSeq → Ordering
  | [], [] => Ordering.eq
  | [], _ :: _ => Ordering.lt
  | _ :: _, [] => Ordering.gt
  | x :: xs, y :: ys =>
    match compare x y with
    | Ordering.eq => cmpBytes xs ys
    | o => o

/-- `#[derive(PartialOrd, Ord)]` on `ServiceId`: compare `service_name` first (the
field declared first), then `key`. -/
def ServiceId.cmp (a b : ServiceId) : Ordering :=
  match cmpBytes a.service_name b.service_name with
  | Ordering.eq => cmpBytes a.key b.key
  | o => o

/-- Sample span context used by concrete instantiations. -/
def sampleSpan : ServiceInvocationSpanContext := { ctx := { token := 0 } }

/-- Sample journal metadata used by concrete instantiations. -/
def sampleMeta : JournalMetadata := JournalMetadata.new [] sampleSpan 0

/-- Sample `InvokedStatus` used by concrete instantiations. -/
def sampleInvoked : InvokedStatus :=
  { invocation_id := 7, journal_metadata := sampleMeta, response_sink := none }

/-- Sample `SuspendedStatus` with waiting set `{1, 2}` (Scenario C of the spec). -/
def sampleSuspended : SuspendedStatus :=
  { invocation_id := 7, journal_metadata := sampleMeta, response_sink := none
    waiting_for_completed_entries := {1, 2} }

/-- Sample `ServiceInvocation` used by concrete instantiations. -/
def sampleInvocation : ServiceInvocation :=
  { id := ServiceInvocationId.new [99, 97] [1] 7
    method_name := [109]
    argument := []
    response_sink := none
    span_context := sampleSpan }

/-- `cmpBytes` returns `eq` exactly on equal byte sequences. -/
theorem cmpBytes_eq_iff : ∀ xs ys : ByteSeq, cmpBytes xs ys = Ordering.eq ↔ xs = ys
  | [], [] => by simp [cmpBytes]
  | [], _ :: _ => by simp [cmpBytes]
  | _ :: _, [] => by simp [cmpBytes]
  | x :: xs, y :: ys => by
    rcases Nat.lt_trichotomy x y with h | h | h
    · have hc : compare x y = Ordering.lt := Nat.compare_eq_lt.mpr h
      simp [cmpBytes, hc, Nat.ne_of_lt h]
    · subst h
      have hc : compare x x = Ordering.eq := Nat.compare_eq_eq.mpr rfl
      simp [cmpBytes, hc, cmpBytes_eq_iff xs ys]
    · have hc : compare x y = Ordering.gt := Nat.compare_eq_gt.mpr h
      simp [cmpBytes, hc, (Nat.ne_of_lt h).symm]

/-- `cmpBytes` returns `lt` exactly on lexicographically smaller sequences. -/
theorem cmpBytes_lt_iff : ∀ xs ys : ByteSeq,
    cmpBytes xs ys = Ordering.lt ↔ List.Lex (· < ·) xs ys
  | [], [] => by
    simp only [cmpBytes]
    constructor
    · intro h; cases h
    · intro h; cases h
  | [], y :: ys => ⟨fun _ => List.Lex.nil, fun _ => rfl⟩
  | x :: xs, [] => by
    simp only [cmpBytes]
    constructor
    · intro h; cases h
    · intro h; cases h
  | x :: xs, y :: ys => by
    rcases Nat.lt_trichotomy x y with h | h | h
    · have hc : compare x y = Ordering.lt := Nat.compare_eq_lt.mpr h
      simp only [cmpBytes, hc]
      exact ⟨fun _ => List.Lex.rel h, fun _ => by trivial⟩
    · subst h
      have hc : compare x x = Ordering.eq := Nat.compare_eq_eq.mpr rfl
      simp only [cmpBytes, hc]
      rw [cmpBytes_lt_iff xs ys]
      constructor
      · exact fun hl => List.Lex.cons hl
      · intro hl
        cases hl with
        | cons h1 => exact h1
        | rel h1 => exact absurd h1 (lt_irrefl x)
    · have hc : compare x y = Ordering.gt := Nat.compare_eq_gt.mpr h
      simp only [cmpBytes, hc]
      constructor
      · intro h1; cases h1
      · intro hl
        cases hl with
        | cons h1 => exact absurd rfl (Nat.ne_of_lt h)
        | rel h1 => exact absurd (h1.trans h) (lt_irrefl x)

/-- `cmpBytes` is antisymmetric: `gt` one way is `lt` the other way. -/
theorem cmpBytes_gt_iff : ∀ xs ys : ByteSeq,
    cmpBytes xs ys = Ordering.gt ↔ cmpBytes ys xs = Ordering.lt
  | [], [] => by simp [cmpBytes]
  | [], _ :: _ => by simp [cmpBytes]
  | _ :: _, [] => by simp [cmpBytes]
  | x :: xs, y :: ys => by
    rcases Nat.lt_trichotomy x y with h | h | h
    · have hc : compare x y = Ordering.lt := Nat.compare_eq_lt.mpr h
      have hc2 : compare y x = Ordering.gt := Nat.compare_eq_gt.mpr h
      simp [cmpBytes, hc, hc2]
    · have hc : compare x y = Ordering.eq := Nat.compare_eq_eq.mpr h
      have hc2 : compare y x = Ordering.eq := Nat.compare_eq_eq.mpr h.symm
      simp [cmpBytes, hc, hc2, cmpBytes_gt_iff xs ys]
    · have hc : compare x y = Ordering.gt := Nat.compare_eq_gt.mpr h
      have hc2 : compare y x = Ordering.lt := Nat.compare_eq_lt.mpr h
      simp [cmpBytes, hc, hc2]

/-- The strict lexicographic order on byte sequences is irreflexive. -/
theorem lex_irrefl (l : ByteSeq) : ¬ List.Lex (· < ·) l l := by
  intro hl
  have h1 := (cmpBytes_lt_iff l l).mpr hl
  rw [(cmpBytes_eq_iff l l).mpr rfl] at h1
  cases h1

/-- The derived `ServiceId` comparison returns `lt` exactly on the lexicographic
(name, then key) order. -/
theorem serviceId_cmp_lt_iff (a b : ServiceId) :
    ServiceId.cmp a b = Ordering.lt ↔
      (List.Lex (· < ·) a.service_name b.service_name
        ∨ (a.service_name = b.service_name ∧ List.Lex (· < ·) a.key b.key)) := by
  unfold ServiceId.cmp
  cases hn : cmpBytes a.service_name b.service_name with
  | lt =>
    simp only []
    have hlex := (cmpBytes_lt_iff _ _).mp hn
    exact ⟨fun _ => Or.inl hlex, fun _ => by trivial⟩
  | eq =>
    have heq := (cmpBytes_eq_iff _ _).mp hn
    simp only []
    rw [cmpBytes_lt_iff]
    constructor
    · exact fun hk => Or.inr ⟨heq, hk⟩
    · intro hor
      rcases hor with hl | ⟨_, hk⟩
      · rw [heq] at hl
        exact absurd hl (lex_irrefl _)
      · exact hk
  | gt =>
    simp only []
    constructor
    · intro h1; cases h1
    · intro hor
      rcases hor with hl | ⟨heq, _⟩
      · rw [(cmpBytes_lt_iff _ _).mpr hl] at hn; cases hn
      · rw [(cmpBytes_eq_iff _ _).mpr heq] at hn; cases hn

/-- The derived `ServiceId` comparison returns `eq` exactly on equal ids. -/
theorem serviceId_cmp_eq_iff (a b : ServiceId) :
    ServiceId.cmp a b = Ordering.eq ↔ a = b := by
  unfold ServiceId.cmp
  cases hn : cmpBytes a.service_name b.service_name with
  | lt =>
    simp only []
    constructor
    · intro h1; cases h1
    · intro h1
      rw [h1, (cmpBytes_eq_iff _ _).mpr rfl] at hn; cases hn
  | eq =>
    have hname := (cmpBytes_eq_iff _ _).mp hn
    simp only []
    rw [cmpBytes_eq_iff]
    constructor
    · intro hk
      cases a; cases b
      simp only at hname hk
      simp [hname, hk]
    · intro h1; rw [h1]
  | gt =>
    simp only []
    constructor
    · intro h1; cases h1
    · intro h1
      rw [h1, (cmpBytes_eq_iff _ _).mpr rfl] at hn; cases hn

/-- The derived `ServiceId` comparison is antisymmetric. -/
theorem serviceId_cmp_gt_iff (a b : ServiceId) :
    ServiceId.cmp a b = Ordering.gt ↔ ServiceId.cmp b a = Ordering.lt := by
  unfold ServiceId.cmp
  cases hn : cmpBytes a.service_name b.service_name with
  | lt =>
    have hn2 : cmpBytes b.service_name a.service_name = Ordering.gt :=
      (cmpBytes_gt_iff _ _).mpr hn
    simp [hn2]
  | eq =>
    have hname := (cmpBytes_eq_iff _ _).mp hn
    have hn2 : cmpBytes b.service_name a.service_name = Ordering.eq :=
      (cmpBytes_eq_iff _ _).mpr hname.symm
    simp [hn2, cmpBytes_gt_iff]
  | gt =>
    have hn2 : cmpBytes b.service_name a.service_name = Ordering.lt :=
      (cmpBytes_gt_iff _ _).mp hn
    simp [hn2]

/-- C1: every `InvocationStatus` is exactly one of the variants `Free`, `Invoked`,
`Suspended` (at most one of `Invoked`/`Suspended` holds, `Free` holds otherwise),
the default status of a service instance is `Free` (so a `ServiceId` absent from
the status table reads as `Free`), and each `ServiceId` has exactly one status at
any observed instant. -/
theorem invocation_status_exactly_one_variant :
    (∀ st : InvocationStatus,
        (st.isFree = true ∨ st.isInvoked = true ∨ st.isSuspended = true)
        ∧ ¬(st.isInvoked = true ∧ st.isSuspended = true)
        ∧ (st.isFree = true ↔ st.isInvoked = false ∧ st.isSuspended = false))
    ∧ InvocationStatus.default = InvocationStatus.Free
    ∧ (∀ sid : ServiceId, getStatus [] sid = InvocationStatus.Free)
    ∧ (∀ (tbl : List (ServiceId × InvocationStatus)) (sid : ServiceId),
        ∃! st : InvocationStatus, getStatus tbl sid = st) := by
  refine ⟨?_, rfl, fun _ => rfl,
    fun tbl sid => ⟨getStatus tbl sid, rfl, fun y hy => hy.symm⟩⟩
  intro st
  cases st <;>
    simp [InvocationStatus.isFree, InvocationStatus.isInvoked,
      InvocationStatus.isSuspended]

/-- C2: `partition_key` is a pure function of the key bytes alone — two
`ServiceId` values with equal `key` byte strings (their `service_name` may
differ) always receive the same `PartitionKey`. -/
theorem partition_key_pure_key_only (a b : ServiceId) (h : a.key = b.key) :
    a.partition_key = b.partition_key := by
  simp [ServiceId.partition_key, h]

/-- Witness for C2 at two concrete ids with different names and equal keys. -/
theorem partition_key_pure_key_only_witness :
    (ServiceId.new [97] [5, 6]).key = (ServiceId.new [98, 99] [5, 6]).key
    ∧ (ServiceId.new [97] [5, 6]).partition_key
        = (ServiceId.new [98, 99] [5, 6]).partition_key :=
  ⟨rfl, partition_key_pure_key_only _ _ rfl⟩

/-- C3: applying the same `CompletionResult` to the same entry index twice yields
the same journal and the same `InvocationStatus` as applying it once. -/
theorem completion_application_idempotent (s : InvocationState) (idx : EntryIndex)
    (r : CompletionResult) :
    handleCompletion (handleCompletion s idx r) idx r = handleCompletion s idx r := by
  rcases s with ⟨status, journal⟩
  cases status with
  | Invoked st => simp [handleCompletion]
  | Free => simp [handleCompletion]
  | Suspended sus =>
    by_cases h : idx ∈ sus.waiting_for_completed_entries
    · by_cases he : sus.waiting_for_completed_entries.erase idx = ∅
      · simp [handleCompletion, h, he]
      · simp [handleCompletion, h, he, Finset.not_mem_erase]
    · simp [handleCompletion, h]

/-- C4: an `invoke` attempt on a non-`Free` instance violates the
single-active-invocation invariant; it is rejected with
`InvalidStatusTransition`, the returned state is exactly the previous one
(status and journal untouched), and the error is surfaced to the caller. -/
theorem invalid_transition_rejected_unchanged (s : InvocationState)
    (inv : ServiceInvocation) (h : s.status ≠ InvocationStatus.Free) :
    invoke s inv = (s, some StateMachineError.InvalidStatusTransition) := by
  rcases s with ⟨status, journal⟩
  cases status with
  | Invoked st => simp [invoke]
  | Suspended st => simp [invoke]
  | Free => exact absurd rfl h

/-- Witness for C4 on a concrete `Invoked` instance. -/
theorem invalid_transition_rejected_unchanged_witness :
    (InvocationState.mk (InvocationStatus.Invoked sampleInvoked) []).status
        ≠ InvocationStatus.Free
    ∧ invoke (InvocationState.mk (InvocationStatus.Invoked sampleInvoked) [])
        sampleInvocation
      = (InvocationState.mk (InvocationStatus.Invoked sampleInvoked) [],
          some StateMachineError.InvalidStatusTransition) :=
  ⟨by decide, invalid_transition_rejected_unchanged _ _ (by decide)⟩

/-- C5: a `CompletionResult` for an entry index not in the waiting set of a
`Suspended` invocation is a no-op — status and journal are unchanged. -/
theorem nonawaited_completion_noop (j : List JournalEntry) (sus : SuspendedStatus)
    (idx : EntryIndex) (r : CompletionResult)
    (h : idx ∉ sus.waiting_for_completed_entries) :
    handleCompletion (InvocationState.mk (InvocationStatus.Suspended sus) j) idx r
      = InvocationState.mk (InvocationStatus.Suspended sus) j := by
  simp [handleCompletion, h]

/-- Witness for C5: Scenario C — completion for index 3 when the waiting set is
`{1, 2}`. -/
theorem nonawaited_completion_noop_witness :
    3 ∉ sampleSuspended.waiting_for_completed_entries
    ∧ handleCompletion
        (InvocationState.mk (InvocationStatus.Suspended sampleSuspended) []) 3
        CompletionResult.Empty
      = InvocationState.mk (InvocationStatus.Suspended sampleSuspended) [] :=
  ⟨by decide, nonawaited_completion_noop _ _ _ _ (by decide)⟩

/-- C6 counterexample: `ServiceId::new` and `ServiceInvocationId::new` perform no
validation, so the empty service name is accepted and stored verbatim. -/
theorem service_id_empty_name_counterexample :
    (ServiceId.new [] [7]).service_name = []
    ∧ (ServiceInvocationId.new [] [7] 0).service_id.service_name = [] :=
  ⟨rfl, rfl⟩

/-- C6 amended: the constructors store the provided service name verbatim, so
the constructed `service_name` is non-empty iff the supplied name is non-empty;
no validation rejects an empty name. -/
theorem service_id_name_verbatim (n k : ByteSeq) (i : InvocationId) :
    (ServiceId.new n k).service_name = n
    ∧ (ServiceInvocationId.new n k i).service_id.service_name = n
    ∧ ((ServiceId.new n k).service_name ≠ [] ↔ n ≠ [])
    ∧ ((ServiceInvocationId.new n k i).service_id.service_name ≠ [] ↔ n ≠ []) :=
  ⟨rfl, rfl, Iff.rfl, Iff.rfl⟩

/-- C7: the derived ordering on `ServiceId` is lexicographic on `service_name`
first and then on `key`, and it is total: for all `a` and `b` exactly one of
`a < b`, `a = b`, `b < a` holds (with `<` read as `cmp _ _ = lt`). -/
theorem service_id_order_lexicographic_total (a b : ServiceId) :
    (ServiceId.cmp a b = Ordering.lt ↔
        (List.Lex (· < ·) a.service_name b.service_name
          ∨ (a.service_name = b.service_name ∧ List.Lex (· < ·) a.key b.key)))
    ∧ (ServiceId.cmp a b = Ordering.eq ↔ a = b)
    ∧ (ServiceId.cmp a b = Ordering.gt ↔ ServiceId.cmp b a = Ordering.lt)
    ∧ ((ServiceId.cmp a b = Ordering.lt ∧ ¬a = b ∧ ¬ServiceId.cmp b a = Ordering.lt)
        ∨ (¬ServiceId.cmp a b = Ordering.lt ∧ a = b
            ∧ ¬ServiceId.cmp b a = Ordering.lt)
        ∨ (¬ServiceId.cmp a b = Ordering.lt ∧ ¬a = b
            ∧ ServiceId.cmp b a = Ordering.lt)) := by
  refine ⟨serviceId_cmp_lt_iff a b, serviceId_cmp_eq_iff a b,
    serviceId_cmp_gt_iff a b, ?_⟩
  cases hv : ServiceId.cmp a b with
  | lt =>
    refine Or.inl ⟨rfl, ?_, ?_⟩
    · intro heq
      have h1 := (serviceId_cmp_eq_iff a b).mpr heq
      rw [hv] at h1; cases h1
    · intro hba
      have h1 := (serviceId_cmp_gt_iff a b).mpr hba
      rw [hv] at h1; cases h1
  | eq =>
    have heq := (serviceId_cmp_eq_iff a b).mp hv
    refine Or.inr (Or.inl ⟨?_, heq, ?_⟩)
    · intro hlt; exact Ordering.noConfusion hlt
    · intro hba
      have h1 := (serviceId_cmp_gt_iff a b).mpr hba
      rw [hv] at h1; cases h1
  | gt =>
    have hba := (serviceId_cmp_gt_iff a b).mp hv
    refine Or.inr (Or.inr ⟨?_, ?_, hba⟩)
    · intro hlt; exact Ordering.noConfusion hlt
    · intro heq
      have h1 := (serviceId_cmp_eq_iff a b).mpr heq
      rw [hv] at h1; cases h1

/-- C8: `ServiceInvocationId::new` is total, performs no I/O and never fails: it
returns exactly the record with `service_id = ServiceId {service_name, key}` and
the given invocation id. -/
theorem service_invocation_id_new_total (n k : ByteSeq) (i : InvocationId) :
    ServiceInvocationId.new n k i
      = { service_id := { service_name := n, key := k }, invocation_id := i } :=
  rfl

/-- C9: `MillisSinceEpoch::new` round-trips through `as_u64`, `From<u64>`
delegates to `new`, `UNIX_EPOCH` is 0 and `MAX` is `u64::MAX`. -/
theorem millis_since_epoch_roundtrip (v : Nat) (h : v < 2 ^ 64) :
    (MillisSinceEpoch.new v).as_u64 = v
    ∧ MillisSinceEpoch.fromU64 v = MillisSinceEpoch.new v
    ∧ MillisSinceEpoch.UNIX_EPOCH.as_u64 = 0
    ∧ MillisSinceEpoch.MAX.as_u64 = u64MAX :=
  ⟨rfl, rfl, rfl, rfl⟩

/-- Witness for C9 at `v = 42`. -/
theorem millis_since_epoch_roundtrip_witness :
    (42 : Nat) < 2 ^ 64
    ∧ ((MillisSinceEpoch.new 42).as_u64 = 42
        ∧ MillisSinceEpoch.fromU64 42 = MillisSinceEpoch.new 42
        ∧ MillisSinceEpoch.UNIX_EPOCH.as_u64 = 0
        ∧ MillisSinceEpoch.MAX.as_u64 = u64MAX) :=
  ⟨by norm_num, millis_since_epoch_roundtrip 42 (by norm_num)⟩

/-- C10: the `From<ResponseResult>` conversion maps `Success` to `Success` and
`Failure` to `Failure`, preserving payload, code and message exactly, and never
produces `Ack` or `Empty`. -/
theorem response_result_to_completion_result_exact (r : ResponseResult) :
    (∀ b, CompletionResult.fromResponseResult (ResponseResult.Success b)
        = CompletionResult.Success b)
    ∧ (∀ c m, CompletionResult.fromResponseResult (ResponseResult.Failure c m)
        = CompletionResult.Failure c m)
    ∧ CompletionResult.fromResponseResult r ≠ CompletionResult.Ack
    ∧ CompletionResult.fromResponseResult r ≠ CompletionResult.Empty := by
  refine ⟨fun b => rfl, fun c m => rfl, ?_, ?_⟩ <;>
    cases r <;> simp [CompletionResult.fromResponseResult]

end Restate
